import Mathlib

/-!
Verification development for the oil-price backend's data-normalization
pipeline (`backend/services.py`): date parsing, price/event row pipelines and
the change-point document normalizer, shallowly embedded as executable Lean
functions, with theorems settling the specified behaviours.
-/

set_option maxRecDepth 4000

namespace OilSpec

/-! ## Calendar dates (`datetime.date`) -/

/-- A calendar date: year/month/day, no time component.  Mirrors Python's
`datetime.date` (valid range year 1..9999, checked at construction). -/
structure Date where
  year : Nat
  month : Nat
  day : Nat
deriving DecidableEq, Repr

/-- Gregorian leap-year rule, as used by `datetime`. -/
def isLeap (y : Nat) : Bool :=
  y % 4 == 0 && (y % 100 != 0 || y % 400 == 0)

/-- Number of days in month `m` of year `y`. -/
def daysInMonth (y m : Nat) : Nat :=
  if m == 2 then (if isLeap y then 29 else 28)
  else if m == 4 || m == 6 || m == 9 || m == 11 then 30
  else 31

/-- Models `datetime.date(y, m, d)` as a checked constructor: `none` models the
`ValueError` raised on out-of-range components. -/
def mkDate (y m d : Nat) : Option Date :=
  if 1 ≤ y && y ≤ 9999 && 1 ≤ m && m ≤ 12 && 1 ≤ d && d ≤ daysInMonth y m then
    some ⟨y, m, d⟩
  else
    none

/-- Zero-pad the decimal rendering of `n` to width `w`. -/
def padZeros (w n : Nat) : String :=
  let s := toString n
  String.mk (List.replicate (w - s.length) '0') ++ s

/-- Python `date.isoformat()`: `YYYY-MM-DD` with zero padding. -/
def Date.isoformat (d : Date) : String :=
  padZeros 4 d.year ++ "-" ++ padZeros 2 d.month ++ "-" ++ padZeros 2 d.day

/-- Lexicographic order on (year, month, day), matching `datetime.date`
comparison. -/
def Date.lt (a b : Date) : Bool :=
  a.year < b.year ||
    (a.year == b.year &&
      (a.month < b.month || (a.month == b.month && a.day < b.day)))

/-! ## Python string primitives -/

/-- Characters stripped by Python's `str.strip()` (`str.isspace()` characters:
ASCII whitespace, the C1 separators, and the Unicode space separators). -/
def isPySpace (c : Char) : Bool :=
  c == ' ' || c == '\t' || c == '\n' || c == '\r' ||
  c.val == 11 || c.val == 12 ||
  (28 ≤ c.val && c.val ≤ 31) || c.val == 133 || c.val == 160 ||
  c.val == 0x1680 || (0x2000 ≤ c.val && c.val ≤ 0x200a) ||
  c.val == 0x2028 || c.val == 0x2029 || c.val == 0x202f ||
  c.val == 0x205f || c.val == 0x3000

/-- Python `str.strip()`: remove leading and trailing whitespace. -/
def pyStrip (s : String) : String :=
  String.mk (((s.data.dropWhile isPySpace).reverse.dropWhile isPySpace).reverse)

/-- Python `str.replace(",", "")`: drop every comma. -/
def stripCommas (s : String) : String :=
  String.mk (s.data.filter (fun c => !(c == ',')))

/-- Python `str.replace("Z", "+00:00")`: every `Z` becomes `+00:00`. -/
def replaceZ (s : String) : String :=
  String.mk (s.data.flatMap (fun c => if c == 'Z' then "+00:00".data else [c]))

/-! ## Character-list parsing helpers -/

/-- Consume exactly `n` leading decimal digits, returning their value. -/
def exactDigits : Nat → List Char → Option (Nat × List Char)
  | 0, cs => some (0, cs)
  | n + 1, c :: cs =>
    if c.isDigit then
      match exactDigits n cs with
      | some (v, rest) => some ((c.toNat - '0'.toNat) * 10 ^ n + v, rest)
      | none => none
    else none
  | _ + 1, [] => none

/-- Consume a maximal run of one or two leading digits (the behaviour of the
`strptime` patterns `%m`/`%d`, whose regexes match one or two digits followed
by a non-digit literal or end of input). -/
def digits1or2 : List Char → Option (Nat × List Char)
  | c1 :: c2 :: cs =>
    if c1.isDigit then
      if c2.isDigit then
        some ((c1.toNat - '0'.toNat) * 10 + (c2.toNat - '0'.toNat), cs)
      else some (c1.toNat - '0'.toNat, c2 :: cs)
    else none
  | [c] => if c.isDigit then some (c.toNat - '0'.toNat, []) else none
  | [] => none

/-- Consume one expected literal character. -/
def expectChar (c : Char) : List Char → Option (List Char)
  | c' :: cs => if c' == c then some cs else none
  | [] => none

/-- Consume a maximal nonempty run of digits, returning its value and length. -/
def digitRun : List Char → Option (Nat × Nat × List Char)
  | c :: cs =>
    if c.isDigit then
      match digitRun cs with
      | some (v, len, rest) =>
        some ((c.toNat - '0'.toNat) * 10 ^ len + v, len + 1, rest)
      | none => some (c.toNat - '0'.toNat, 1, cs)
    else none
  | [] => none

/-! ## `datetime.fromisoformat` (date fast path)

Models the dashed ISO forms accepted by `datetime.fromisoformat`:
`YYYY-MM-DD`, optionally followed by a single separator character and a time
`HH:MM[:SS[.fff[fff]]]` with an optional UTC offset `±HH:MM[:SS]`.  Only the
date portion is returned (`.date()` in the source). -/

/-- Parse the optional fractional-seconds part: `.` followed by exactly 3 or 6
digits. -/
def isoFraction : List Char → Option (List Char)
  | [] => some []
  | '.' :: cs =>
    match digitRun cs with
    | some (_, len, rest) =>
      if len == 3 || len == 6 then some rest else none
    | none => none
  | cs => some cs

/-- Parse an `HH:MM[:SS]` group bounded by `hBound`/`mBound`/`sBound`. -/
def isoHMS (hBound : Nat) : List Char → Option (Nat × List Char)
  | cs => do
    let (h, cs) ← exactDigits 2 cs
    if h ≥ hBound then none else
    let cs ← expectChar ':' cs
    let (m, cs) ← exactDigits 2 cs
    if m ≥ 60 then none else
    match cs with
    | ':' :: cs' => do
      let (s, cs'') ← exactDigits 2 cs'
      if s ≥ 60 then none else some (h, cs'')
    | _ => some (h, cs)

/-- Parse the optional trailing UTC offset `±HH:MM[:SS]`. -/
def isoOffset : List Char → Option Unit
  | [] => some ()
  | c :: cs =>
    if c == '+' || c == '-' then
      match isoHMS 24 cs with
      | some (_, []) => some ()
      | _ => none
    else none

/-- Parse the time-of-day portion (after the single separator character),
with optional fraction and offset. -/
def isoTimePart (cs : List Char) : Option Unit := do
  let (_, cs) ← isoHMS 24 cs
  let cs ← isoFraction cs
  isoOffset cs

/-- The date fast path of `DateParser.parse`:
`datetime.fromisoformat(text).date()`, returning `none` where Python raises
`ValueError`. -/
def fromisoformatDate (s : String) : Option Date := do
  let cs := s.data
  let (y, cs) ← exactDigits 4 cs
  let cs ← expectChar '-' cs
  let (m, cs) ← exactDigits 2 cs
  let cs ← expectChar '-' cs
  let (d, cs) ← exactDigits 2 cs
  let date ← mkDate y m d
  match cs with
  | [] => some date
  | _ :: rest => do
    let _ ← isoTimePart rest
    some date

/-! ## The five `strptime` fallback formats -/

/-- The `strptime` month-abbreviation table (`%b`, C locale), lowercase. -/
def monthAbbrevs : List (String × Nat) :=
  [("jan", 1), ("feb", 2), ("mar", 3), ("apr", 4), ("may", 5), ("jun", 6),
   ("jul", 7), ("aug", 8), ("sep", 9), ("oct", 10), ("nov", 11), ("dec", 12)]

/-- Parse a `%b` month abbreviation, case-insensitively. -/
def parseMonthAbbrev (cs : List Char) : Option (Nat × List Char) :=
  match cs with
  | c1 :: c2 :: c3 :: rest =>
    let key := String.mk [c1.toLower, c2.toLower, c3.toLower]
    match monthAbbrevs.lookup key with
    | some m => some (m, rest)
    | none => none
  | _ => none

/-- Pattern `%m`: one or two digits forming a month number 1..12. -/
def parsePercentM (cs : List Char) : Option (Nat × List Char) := do
  let (v, rest) ← digits1or2 cs
  if 1 ≤ v && v ≤ 12 then some (v, rest) else none

/-- Pattern `%d`: one or two digits forming a day number 1..31. -/
def parsePercentD (cs : List Char) : Option (Nat × List Char) := do
  let (v, rest) ← digits1or2 cs
  if 1 ≤ v && v ≤ 31 then some (v, rest) else none

/-- Pattern `%Y`: exactly four digits. -/
def parsePercentY (cs : List Char) : Option (Nat × List Char) :=
  exactDigits 4 cs

/-- Pattern `%y`: exactly two digits, with CPython's century pivot
(`00..68 → 2000..2068`, `69..99 → 1969..1999`). -/
def parsePercentLowerY (cs : List Char) : Option (Nat × List Char) := do
  let (v, rest) ← exactDigits 2 cs
  some (if v ≤ 68 then 2000 + v else 1900 + v, rest)

/-- Models `strptime(text, "%Y/%m/%d")`. -/
def strptimeYmd (s : String) : Option Date := do
  let cs := s.data
  let (y, cs) ← parsePercentY cs
  let cs ← expectChar '/' cs
  let (m, cs) ← parsePercentM cs
  let cs ← expectChar '/' cs
  let (d, cs) ← parsePercentD cs
  match cs with
  | [] => mkDate y m d
  | _ => none

/-- Models `strptime(text, "%m/%d/%Y")`. -/
def strptimeMdy (s : String) : Option Date := do
  let cs := s.data
  let (m, cs) ← parsePercentM cs
  let cs ← expectChar '/' cs
  let (d, cs) ← parsePercentD cs
  let cs ← expectChar '/' cs
  let (y, cs) ← parsePercentY cs
  match cs with
  | [] => mkDate y m d
  | _ => none

/-- Models `strptime(text, "%d/%m/%Y")`. -/
def strptimeDmy (s : String) : Option Date := do
  let cs := s.data
  let (d, cs) ← parsePercentD cs
  let cs ← expectChar '/' cs
  let (m, cs) ← parsePercentM cs
  let cs ← expectChar '/' cs
  let (y, cs) ← parsePercentY cs
  match cs with
  | [] => mkDate y m d
  | _ => none

/-- Models `strptime(text, "%d-%b-%y")`. -/
def strptimeDby (s : String) : Option Date := do
  let cs := s.data
  let (d, cs) ← parsePercentD cs
  let cs ← expectChar '-' cs
  let (m, cs) ← parseMonthAbbrev cs
  let cs ← expectChar '-' cs
  let (y, cs) ← parsePercentLowerY cs
  match cs with
  | [] => mkDate y m d
  | _ => none

/-- Models `strptime(text, "%d-%b-%Y")`. -/
def strptimeDbY (s : String) : Option Date := do
  let cs := s.data
  let (d, cs) ← parsePercentD cs
  let cs ← expectChar '-' cs
  let (m, cs) ← parseMonthAbbrev cs
  let cs ← expectChar '-' cs
  let (y, cs) ← parsePercentY cs
  match cs with
  | [] => mkDate y m d
  | _ => none

/-- The fallback formats, in the order the source lists them:
`%Y/%m/%d`, `%m/%d/%Y`, `%d/%m/%Y`, `%d-%b-%y`, `%d-%b-%Y`. -/
def formatAttempts : List (String → Option Date) :=
  [strptimeYmd, strptimeMdy, strptimeDmy, strptimeDby, strptimeDbY]

/-! ## `DateParser.parse` -/

namespace DateParser

/-- Models `DateParser.parse(value)`: `None` and blank inputs yield `None`; then the
ISO fast path (with `Z` replaced by `+00:00`); then the five `strptime`
formats in order, first full match winning; else `None`.  Total — never
raises. -/
def parse (value : Option String) : Option Date :=
  match value with
  | none => none
  | some v =>
    let text := pyStrip v
    if text.isEmpty then none
    else
      match fromisoformatDate (replaceZ text) with
      | some d => some d
      | none => formatAttempts.findSome? (fun fmt => fmt text)

end DateParser

/-! ## Python `float()` -/

/-- A Python float value as produced by `float(text)`: a finite value
(modelled exactly as a rational), a signed infinity, or NaN. -/
inductive PyFloat where
  | finite (q : Rat)
  | inf (neg : Bool)
  | nan
deriving DecidableEq, Repr

/-- Whether a `PyFloat` is finite (`math.isfinite`). -/
def PyFloat.isFinite : PyFloat → Bool
  | .finite _ => true
  | _ => false

/-- Consume a run of digits possibly separated by single underscores
(Python numeric-literal digit groups); the first character must already be
known to be a digit.  Returns (value, digit count, rest). -/
def groupedDigits (acc len : Nat) : List Char → Nat × Nat × List Char
  | [] => (acc, len, [])
  | c :: cs =>
    if c.isDigit then groupedDigits (acc * 10 + (c.toNat - '0'.toNat)) (len + 1) cs
    else if c == '_' then
      match cs with
      | c2 :: cs2 =>
        if c2.isDigit then
          groupedDigits (acc * 10 + (c2.toNat - '0'.toNat)) (len + 1) cs2
        else (acc, len, c :: c2 :: cs2)
      | [] => (acc, len, [c])
    else (acc, len, c :: cs)

/-- A digit group that must start with a digit (no leading underscore). -/
def digitGroup (cs : List Char) : Option (Nat × Nat × List Char) :=
  match cs with
  | c :: _ => if c.isDigit then some (groupedDigits 0 0 cs) else none
  | [] => none

/-- Parse the decimal-number body of `float()`: `[digits][.digits][(e|E)[±]digits]`,
requiring at least one mantissa digit and full consumption. -/
def parseFloatBody (neg : Bool) (cs : List Char) : Option PyFloat := do
  let (ipart, icount, cs) :=
    match digitGroup cs with
    | some r => r
    | none => (0, 0, cs)
  let (fpart, fcount, cs) :=
    match cs with
    | '.' :: cs' =>
      match digitGroup cs' with
      | some r => r
      | none => (0, 0, cs')
    | _ => (0, 0, cs)
  if icount + fcount == 0 then none else
  let (exp, cs) ← (do
    match cs with
    | c :: cs' =>
      if c == 'e' || c == 'E' then
        let (eneg, cs'') :=
          match cs' with
          | '+' :: r => (false, r)
          | '-' :: r => (true, r)
          | _ => (false, cs')
        match digitGroup cs'' with
        | some (ev, _, rest) => some (if eneg then -(ev : Int) else (ev : Int), rest)
        | none => none
      else some ((0 : Int), cs)
    | [] => some ((0 : Int), cs))
  match cs with
  | [] =>
    let scale : Int := exp - (fcount : Int)
    let base : Nat := ipart * 10 ^ fcount + fpart
    let mag : Rat :=
      if 0 ≤ scale then mkRat (Int.ofNat (base * 10 ^ scale.toNat)) 1
      else mkRat (Int.ofNat base) (10 ^ (-scale).toNat)
    some (.finite (if neg then -mag else mag))
  | _ => none

/-- Models `float(text)`: strip whitespace, optional sign, then `inf`/`infinity`/`nan`
(case-insensitive) or a decimal number.  `none` models the `ValueError`. -/
def pyFloatOfString (s : String) : Option PyFloat :=
  let cs := ((s.data.dropWhile isPySpace).reverse.dropWhile isPySpace).reverse
  let (neg, cs) :=
    match cs with
    | '+' :: r => (false, r)
    | '-' :: r => (true, r)
    | _ => (false, cs)
  let lower := String.mk (cs.map Char.toLower)
  if lower == "inf" || lower == "infinity" then some (.inf neg)
  else if lower == "nan" then some .nan
  else parseFloatBody neg cs

/-! ## Rows of a tabular source

A `Row` models one `csv.DictReader` row: an association of column name to
cell text, where a `none` cell models Python `None` (a short row's missing
value).  `rowGet` models `row.get(k)` (absent key and `None` value both give
`None`); `rowHasKey` models `k in row`. -/

abbrev Row := List (String × Option String)

/-- Python `row.get(k)`. -/
def rowGet (r : Row) (k : String) : Option String :=
  match r.find? (fun p => p.1 == k) with
  | some p => p.2
  | none => none

/-- Python `k in row`. -/
def rowHasKey (r : Row) (k : String) : Bool :=
  r.any (fun p => p.1 == k)

/-- Python `x or default` for an optional string: `None` and `""` both give
the default. -/
def pyOrDefault (x : Option String) (dflt : String) : String :=
  match x with
  | some s => if s.isEmpty then dflt else s
  | none => dflt

/-- Python `x or None` for an optional string: `None` and `""` both give
`None`. -/
def pyOrNone (x : Option String) : Option String :=
  match x with
  | some s => if s.isEmpty then none else some s
  | none => none

/-! ## Typed failure (`ValidationError`) -/

/-- The single failure type of the services: a message and an HTTP-like
status code (404 for missing files, 400 otherwise). -/
structure ValidationError where
  message : String
  status_code : Nat
deriving DecidableEq, Repr

/-! ## Stable sort by a string key (`list.sort(key=...)`) -/

/-- Insert `x` after every element whose key is not greater: with `foldl`
this yields a stable insertion sort, matching Python's stable `list.sort`. -/
def insertByKey {α : Type} (key : α → String) (x : α) : List α → List α
  | [] => [x]
  | y :: ys => if key x < key y then x :: y :: ys else y :: insertByKey key x ys

/-- Stable sort ascending by `key`. -/
def sortByKey {α : Type} (key : α → String) (l : List α) : List α :=
  l.foldl (fun acc x => insertByKey key x acc) []

/-! ## Price Pipeline (`PriceService`) -/

/-- One emitted price record `{"date": ..., "price": ...}`. -/
structure PriceItem where
  date : String
  price : PyFloat
deriving DecidableEq, Repr

namespace PriceService

/-- Models `PriceService._parse_query_date`. -/
def parse_query_date (name : String) (raw : Option String) :
    Except ValidationError (Option Date) :=
  match raw with
  | none => .ok none
  | some r =>
    let text := pyStrip r
    if text.isEmpty then .ok none
    else
      match DateParser.parse (some text) with
      | none =>
        .error ⟨"Invalid '" ++ name ++ "' date '" ++ text ++
          "'. Use YYYY-MM-DD (recommended).", 400⟩
      | some d => .ok (some d)

/-- Models `PriceService.parse_query_dates`. -/
def parse_query_dates (start_raw end_raw : Option String) :
    Except ValidationError (Option Date × Option Date) := do
  let start ← parse_query_date "start" start_raw
  let stop ← parse_query_date "end" end_raw
  match start, stop with
  | some s, some e =>
    if Date.lt e s then
      .error ⟨"Invalid date range: start must be <= end.", 400⟩
    else .ok (start, stop)
  | _, _ => .ok (start, stop)

/-- Loop state of the row loop: emitted payload and the two invalid counters. -/
structure Acc where
  payload : List PriceItem
  invalid_date : Nat
  invalid_price : Nat
deriving DecidableEq, Repr

/-- Python `(row.get("Price") or "").replace(",", "").strip()`. -/
def priceTextOf (row : Row) : String :=
  pyStrip (stripCommas (pyOrDefault (rowGet row "Price") ""))

/-- One iteration of the `get_prices` row loop. -/
def priceStep (start? end? : Option Date) (acc : Acc) (row : Row) : Acc :=
  match DateParser.parse (rowGet row "Date") with
  | none => { acc with invalid_date := acc.invalid_date + 1 }
  | some row_date =>
    match pyFloatOfString (priceTextOf row) with
    | none => { acc with invalid_price := acc.invalid_price + 1 }
    | some price =>
      if start?.any (fun s => Date.lt row_date s) then acc
      else if end?.any (fun e => Date.lt e row_date) then acc
      else { acc with payload := acc.payload ++ [⟨row_date.isoformat, price⟩] }

/-- The full row loop of `get_prices`. -/
def processRows (start? end? : Option Date) (rows : List Row) : Acc :=
  rows.foldl (priceStep start? end?) ⟨[], 0, 0⟩

/-- The `NoValidData` message of `get_prices`. -/
def noValidPricesMsg (invalid_date invalid_price : Nat) : String :=
  "No valid price rows found after parsing. Invalid dates: " ++
    toString invalid_date ++ ", invalid prices: " ++ toString invalid_price ++ "."

/-- Models `PriceService._select_prices_path`: the primary price file if it exists,
else the fallback.  The filesystem is abstracted as the contents of the two
files (`none` = file absent). -/
def select_prices_path (primary alt : Option (List Row)) : Option (List Row) :=
  if primary.isSome then primary else alt

/-- The body of `PriceService.get_prices` over the selected file: the
existence check, the emptiness/schema checks, bound parsing, the row loop,
the date sort and the `NoValidData` check, following the source line by
line. -/
def get_prices_from (selected : Option (List Row))
    (start_raw end_raw : Option String) : Except ValidationError (List PriceItem) :=
  match selected with
  | none => .error ⟨"brent_prices.csv or BrentOilPrices.csv not found", 404⟩
  | some rows =>
    match rows with
    | [] => .ok []
    | r0 :: _ =>
      if !(rowHasKey r0 "Date" && rowHasKey r0 "Price") then
        .error ⟨"Expected columns: Date, Price", 400⟩
      else
        match parse_query_dates start_raw end_raw with
        | .error e => .error e
        | .ok (start?, end?) =>
          let acc := processRows start? end? rows
          let payload := sortByKey PriceItem.date acc.payload
          if payload.isEmpty && (acc.invalid_date != 0 || acc.invalid_price != 0) then
            .error ⟨noValidPricesMsg acc.invalid_date acc.invalid_price, 400⟩
          else .ok payload

/-- Models `PriceService.get_prices`: select the source file, then run the body. -/
def get_prices (primary alt : Option (List Row))
    (start_raw end_raw : Option String) : Except ValidationError (List PriceItem) :=
  get_prices_from (select_prices_path primary alt) start_raw end_raw

end PriceService

/-! ## Event Pipeline (`EventService`) -/

/-- One emitted event record `{"date": ..., "event": ..., "category": ...}`. -/
structure EventItem where
  date : String
  event : String
  category : Option String
deriving DecidableEq, Repr

namespace EventService

/-- Loop state of the row loop: emitted payload and the two invalid counters. -/
structure Acc where
  payload : List EventItem
  invalid_date : Nat
  invalid_event : Nat
deriving DecidableEq, Repr

/-- One iteration of the `get_events` row loop.  The category is
`(row.get("category") or None) if has_category else None`. -/
def eventStep (has_category : Bool) (acc : Acc) (row : Row) : Acc :=
  match DateParser.parse (rowGet row "date") with
  | none => { acc with invalid_date := acc.invalid_date + 1 }
  | some row_date =>
    let event := pyStrip (pyOrDefault (rowGet row "event") "")
    if event.isEmpty then { acc with invalid_event := acc.invalid_event + 1 }
    else
      { acc with payload := acc.payload ++
          [⟨row_date.isoformat, event,
            if has_category then pyOrNone (rowGet row "category") else none⟩] }

/-- The full row loop of `get_events`. -/
def processRows (has_category : Bool) (rows : List Row) : Acc :=
  rows.foldl (eventStep has_category) ⟨[], 0, 0⟩

/-- The `NoValidData` message of `get_events`. -/
def noValidEventsMsg (invalid_date invalid_event : Nat) : String :=
  "No valid event rows found after parsing. Invalid dates: " ++
    toString invalid_date ++ ", invalid events: " ++ toString invalid_event ++ "."

/-- Models `EventService.get_events`, over the contents of the events file
(`none` = file absent). -/
def get_events (events : Option (List Row)) : Except ValidationError (List EventItem) :=
  match events with
  | none => .error ⟨"events.csv not found", 404⟩
  | some rows =>
    match rows with
    | [] => .ok []
    | r0 :: _ =>
      if !(rowHasKey r0 "date" && rowHasKey r0 "event") then
        .error ⟨"Expected columns: date, event", 400⟩
      else
        let has_category := rowHasKey r0 "category"
        let acc := processRows has_category rows
        let payload := sortByKey EventItem.date acc.payload
        if payload.isEmpty && (acc.invalid_date != 0 || acc.invalid_event != 0) then
          .error ⟨noValidEventsMsg acc.invalid_date acc.invalid_event, 400⟩
        else .ok payload

end EventService

/-! ## JSON values and the Change-Point Normalizer (`ChangePointService`) -/

/-- A decoded JSON value as produced by `json.load`: objects are
insertion-ordered association lists, numbers are modelled as rationals. -/
inductive JValue where
  | null
  | bool (b : Bool)
  | num (q : Rat)
  | str (s : String)
  | arr (xs : List JValue)
  | obj (fields : List (String × JValue))

/-- Python `payload.get(k)` on a decoded JSON object (first matching key). -/
def dictGet (d : List (String × JValue)) (k : String) : Option JValue :=
  match d.find? (fun p => p.1 == k) with
  | some p => some p.2
  | none => none

/-- Python `k in payload` on a decoded JSON object. -/
def dictHasKey (d : List (String × JValue)) (k : String) : Bool :=
  (d.find? (fun p => p.1 == k)).isSome

/-- Python `d[k] = v` on an insertion-ordered dict: replace the first binding of `k`
in place, else append a new binding. -/
def dictSet (d : List (String × JValue)) (k : String) (v : JValue) :
    List (String × JValue) :=
  match d with
  | [] => [(k, v)]
  | (k', v') :: rest =>
    if k' == k then (k, v) :: rest else (k', v') :: dictSet rest k v

/-- Python `str(x)` on a decoded JSON value.  The string and integer cases —
the only ones a curated `date` field takes — are exact; the remaining cases
are approximate renderings, none of which is date-shaped, so they parse to
`None` exactly as their Python counterparts do. -/
def pyStr : JValue → String
  | .str s => s
  | .num q => if q.den == 1 then toString q.num else toString q
  | .bool b => if b then "True" else "False"
  | .null => "None"
  | .arr _ => "[...]"
  | .obj _ => "(...)"

/-- The four recognized optional keys of a change-point entry, in the fixed
order the source iterates them. -/
def recognizedKeys : List String :=
  ["mean_before", "mean_after", "impact_pct", "notes"]

namespace ChangePointService

/-- Python `str(cp.get("date")) if cp.get("date") is not None else None`: a missing
key and a JSON `null` both give `None`; any other value is stringified. -/
def cpDateText (fields : List (String × JValue)) : Option String :=
  match dictGet fields "date" with
  | none => none
  | some .null => none
  | some v => some (pyStr v)

/-- An entry on which the loop body succeeds: an object whose (stringified)
`date` field parses. -/
def entryDateOk (cp : JValue) : Bool :=
  match cp with
  | .obj f => (DateParser.parse (cpDateText f)).isSome
  | _ => false

/-- The `SchemaError` message for an entry whose date is absent/unparsable. -/
def badDateMsg (idx : Nat) : String :=
  "change_points[" ++ toString idx ++ "].date is required and must be a valid date"

/-- The `SchemaError` message for a non-object entry. -/
def notObjectMsg (idx : Nat) : String :=
  "change_points[" ++ toString idx ++ "] must be an object"

/-- Normalize one change-point entry (the body of the `for idx, cp` loop):
non-objects and entries without a parsable date abort with a `SchemaError`
naming the index; otherwise the output dict starts from the canonical date
and copies each recognized key present on the entry, in order. -/
def normalizeEntry (idx : Nat) (cp : JValue) :
    Except ValidationError (List (String × JValue)) :=
  match cp with
  | .obj fields =>
    match DateParser.parse (cpDateText fields) with
    | none => .error ⟨badDateMsg idx, 400⟩
    | some d =>
      .ok (recognizedKeys.foldl
        (fun acc k =>
          if dictHasKey fields k then dictSet acc k ((dictGet fields k).getD .null)
          else acc)
        [("date", .str d.isoformat)])
  | _ => .error ⟨notObjectMsg idx, 400⟩

/-- The entry loop: normalize each entry at its index, aborting at the first
failure (no partial output). -/
def processEntries (idx : Nat) : List JValue →
    Except ValidationError (List (List (String × JValue)))
  | [] => .ok []
  | cp :: rest =>
    match normalizeEntry idx cp with
    | .error e => .error e
    | .ok item =>
      match processEntries (idx + 1) rest with
      | .error e => .error e
      | .ok items => .ok (item :: items)

/-- Models `ChangePointService.get_change_points`.  The file is `none` when absent;
`some (.error exc)` when opening/decoding raises (carrying the exception
text); `some (.ok v)` when it decodes to `v`. -/
def get_change_points (file : Option (Except String JValue)) :
    Except ValidationError (List (String × JValue)) :=
  match file with
  | none => .error ⟨"change_points.json not found", 404⟩
  | some (.error exc) => .error ⟨"Failed to read change_points.json: " ++ exc, 400⟩
  | some (.ok payload) =>
    match payload with
    | .obj fields =>
      match dictGet fields "change_points" with
      | none =>
        .error ⟨"change_points.json missing required key: change_points", 400⟩
      | some .null =>
        .error ⟨"change_points.json missing required key: change_points", 400⟩
      | some (.arr cps) =>
        match processEntries 0 cps with
        | .error e => .error e
        | .ok items =>
          .ok (dictSet fields "change_points" (.arr (items.map .obj)))
      | some _ => .error ⟨"change_points must be a list", 400⟩
    | _ => .error ⟨"change_points.json must be a JSON object", 400⟩

end ChangePointService

/-! ## Concrete sources used by the concrete theorems -/

/-- The price source of the spec's Price Pipeline example. -/
def c2Rows : List Row :=
  [[("Date", some "2020-01-01"), ("Price", some "1,234.5")],
   [("Date", some "bad"), ("Price", some "10")],
   [("Date", some "2020-01-02"), ("Price", some "notanumber")]]

/-- An events source whose header has a `category` column and whose single
row carries an empty-string category value. -/
def emptyCategoryRows : List Row :=
  [[("date", some "2020-01-01"), ("event", some "x"), ("category", some "")]]

/-- A price source whose single row has the price text `inf`. -/
def infPriceRows : List Row :=
  [[("Date", some "2020-01-01"), ("Price", some "inf")]]

/-! # Helper lemmas -/

theorem pyStrip_of_all_space {s : String} (h : ∀ c ∈ s.data, isPySpace c = true) :
    pyStrip s = "" := by
  unfold pyStrip
  rw [List.dropWhile_eq_nil_iff.mpr h]
  rfl

theorem length_insertByKey {α : Type} (key : α → String) (x : α) (l : List α) :
    (insertByKey key x l).length = l.length + 1 := by
  induction l with
  | nil => rfl
  | cons y ys ih => by_cases h : key x < key y <;> simp [insertByKey, h, ih]

theorem length_foldl_insertByKey {α : Type} (key : α → String) :
    ∀ (l acc : List α),
      (l.foldl (fun acc x => insertByKey key x acc) acc).length =
        acc.length + l.length := by
  intro l
  induction l with
  | nil => intro acc; simp
  | cons x xs ih =>
    intro acc
    simp only [List.foldl_cons, List.length_cons]
    rw [ih, length_insertByKey]
    omega

theorem length_sortByKey {α : Type} (key : α → String) (l : List α) :
    (sortByKey key l).length = l.length := by
  unfold sortByKey
  rw [length_foldl_insertByKey]
  simp

theorem sortByKey_eq_nil_iff {α : Type} (key : α → String) (l : List α) :
    sortByKey key l = [] ↔ l = [] := by
  constructor
  · intro h
    have hl := length_sortByKey key l
    rw [h] at hl
    exact List.length_eq_zero.mp hl.symm
  · intro h
    subst h
    rfl

theorem mem_insertByKey {α : Type} {key : α → String} {x a : α} :
    ∀ {l : List α}, a ∈ insertByKey key x l → a = x ∨ a ∈ l := by
  intro l
  induction l with
  | nil => intro h; simpa [insertByKey] using h
  | cons y ys ih =>
    intro h
    by_cases hc : key x < key y
    · simp only [insertByKey, if_pos hc, List.mem_cons] at h
      simp only [List.mem_cons]
      tauto
    · simp only [insertByKey, if_neg hc, List.mem_cons] at h
      simp only [List.mem_cons]
      rcases h with h | h
      · tauto
      · rcases ih h with h' | h' <;> tauto

theorem mem_foldl_insertByKey {α : Type} {key : α → String} {a : α} :
    ∀ {l acc : List α},
      a ∈ l.foldl (fun acc x => insertByKey key x acc) acc → a ∈ acc ∨ a ∈ l := by
  intro l
  induction l with
  | nil => intro acc h; exact Or.inl h
  | cons x xs ih =>
    intro acc h
    simp only [List.foldl_cons] at h
    rcases ih h with h' | h'
    · rcases mem_insertByKey h' with h'' | h''
      · exact Or.inr (by simp [h''])
      · exact Or.inl h''
    · exact Or.inr (by simp [h'])

theorem mem_sortByKey {α : Type} {key : α → String} {a : α} {l : List α}
    (h : a ∈ sortByKey key l) : a ∈ l := by
  rcases mem_foldl_insertByKey h with h' | h'
  · simp at h'
  · exact h'

theorem get_prices_unfold (alt : Option (List Row)) (s e : Option String)
    (r0 : Row) (rest : List Row) (st en : Option Date)
    (hD : rowHasKey r0 "Date" = true) (hP : rowHasKey r0 "Price" = true)
    (hq : PriceService.parse_query_dates s e = .ok (st, en)) :
    PriceService.get_prices (some (r0 :: rest)) alt s e =
      if (sortByKey PriceItem.date
            (PriceService.processRows st en (r0 :: rest)).payload).isEmpty &&
          ((PriceService.processRows st en (r0 :: rest)).invalid_date != 0 ||
            (PriceService.processRows st en (r0 :: rest)).invalid_price != 0) then
        .error ⟨PriceService.noValidPricesMsg
          (PriceService.processRows st en (r0 :: rest)).invalid_date
          (PriceService.processRows st en (r0 :: rest)).invalid_price, 400⟩
      else
        .ok (sortByKey PriceItem.date
          (PriceService.processRows st en (r0 :: rest)).payload) := by
  simp only [PriceService.get_prices, PriceService.select_prices_path,
    PriceService.get_prices_from, Option.isSome_some, if_true, hD, hP, hq,
    Bool.and_self, Bool.not_true, Bool.false_eq_true, if_false]

theorem get_events_unfold (r0 : Row) (rest : List Row)
    (hD : rowHasKey r0 "date" = true) (hE : rowHasKey r0 "event" = true) :
    EventService.get_events (some (r0 :: rest)) =
      if (sortByKey EventItem.date
            (EventService.processRows (rowHasKey r0 "category") (r0 :: rest)).payload).isEmpty &&
          ((EventService.processRows (rowHasKey r0 "category") (r0 :: rest)).invalid_date != 0 ||
            (EventService.processRows (rowHasKey r0 "category") (r0 :: rest)).invalid_event != 0) then
        .error ⟨EventService.noValidEventsMsg
          (EventService.processRows (rowHasKey r0 "category") (r0 :: rest)).invalid_date
          (EventService.processRows (rowHasKey r0 "category") (r0 :: rest)).invalid_event, 400⟩
      else
        .ok (sortByKey EventItem.date
          (EventService.processRows (rowHasKey r0 "category") (r0 :: rest)).payload) := by
  simp only [EventService.get_events, hD, hE,
    Bool.and_self, Bool.not_true, Bool.false_eq_true, if_false]

theorem get_events_header_bad (r0 : Row) (rest : List Row)
    (h : rowHasKey r0 "date" = false ∨ rowHasKey r0 "event" = false) :
    EventService.get_events (some (r0 :: rest)) =
      .error ⟨"Expected columns: date, event", 400⟩ := by
  rcases h with h | h <;> simp [EventService.get_events, h]

theorem events_category_none_aux :
    ∀ (rows : List Row) (acc : EventService.Acc),
      (∀ it ∈ acc.payload, it.category = none) →
      ∀ it ∈ (rows.foldl (EventService.eventStep false) acc).payload,
        it.category = none := by
  intro rows
  induction rows with
  | nil => intro acc hacc it hit; exact hacc it hit
  | cons r rs ih =>
    intro acc hacc it hit
    simp only [List.foldl_cons] at hit
    refine ih (EventService.eventStep false acc r) ?_ it hit
    intro it' hit'
    cases hd : DateParser.parse (rowGet r "date") with
    | none =>
      simp only [EventService.eventStep, hd] at hit'
      exact hacc it' hit'
    | some d =>
      simp only [EventService.eventStep, hd] at hit'
      by_cases he : (pyStrip (pyOrDefault (rowGet r "event") "")).isEmpty
      · rw [if_pos he] at hit'
        exact hacc it' hit'
      · rw [if_neg he] at hit'
        simp only [List.mem_append, List.mem_singleton] at hit'
        rcases hit' with hit' | hit'
        · exact hacc it' hit'
        · subst hit'
          rfl

theorem mem_priceFold :
    ∀ (rows : List Row) (st en : Option Date) (acc : PriceService.Acc)
      (it : PriceItem),
      it ∈ (rows.foldl (PriceService.priceStep st en) acc).payload →
      it ∈ acc.payload ∨
        ∃ row ∈ rows, pyFloatOfString (PriceService.priceTextOf row) = some it.price := by
  intro rows
  induction rows with
  | nil => intro st en acc it hit; exact Or.inl hit
  | cons r rs ih =>
    intro st en acc it hit
    simp only [List.foldl_cons] at hit
    have step : it ∈ (PriceService.priceStep st en acc r).payload ∨
        ∃ row ∈ rs, pyFloatOfString (PriceService.priceTextOf row) = some it.price :=
      ih st en (PriceService.priceStep st en acc r) it hit
    rcases step with hstep | ⟨row, hrow, hpf⟩
    · cases hd : DateParser.parse (rowGet r "Date") with
      | none =>
        simp only [PriceService.priceStep, hd] at hstep
        exact Or.inl hstep
      | some d =>
        cases hf : pyFloatOfString (PriceService.priceTextOf r) with
        | none =>
          simp only [PriceService.priceStep, hd, hf] at hstep
          exact Or.inl hstep
        | some p =>
          simp only [PriceService.priceStep, hd, hf] at hstep
          by_cases h1 : st.any (fun s => Date.lt d s)
          · rw [if_pos h1] at hstep
            exact Or.inl hstep
          · rw [if_neg h1] at hstep
            by_cases h2 : en.any (fun e => Date.lt e d)
            · rw [if_pos h2] at hstep
              exact Or.inl hstep
            · rw [if_neg h2] at hstep
              simp only [List.mem_append, List.mem_singleton] at hstep
              rcases hstep with hstep | hstep
              · exact Or.inl hstep
              · refine Or.inr ⟨r, by simp, ?_⟩
                subst hstep
                exact hf
    · exact Or.inr ⟨row, by simp [hrow], hpf⟩

theorem dictHasKey_iff_isSome (d : List (String × JValue)) (k : String) :
    dictHasKey d k = (dictGet d k).isSome := by
  unfold dictHasKey dictGet
  cases h : d.find? (fun p => p.1 == k) <;> simp

theorem dictHasKey_singleton (k1 k : String) (v : JValue) :
    dictHasKey [(k1, v)] k = (k1 == k) := by
  unfold dictHasKey
  simp only [List.find?_singleton]
  cases h : (k1 == k) <;> simp [h]

theorem dictSet_of_not_hasKey :
    ∀ (d : List (String × JValue)) (k : String) (v : JValue),
      dictHasKey d k = false → dictSet d k v = d ++ [(k, v)] := by
  intro d
  induction d with
  | nil => intro k v _; rfl
  | cons p rest ih =>
    intro k v h
    unfold dictHasKey at h
    rw [List.find?_cons] at h
    cases hpk : (p.1 == k) with
    | true => simp [hpk] at h
    | false =>
      simp only [hpk] at h
      show (if p.1 == k then _ else _) = _
      rw [if_neg (by simp [hpk])]
      rw [ih k v h]
      simp

theorem dictHasKey_append (d1 d2 : List (String × JValue)) (k : String) :
    dictHasKey (d1 ++ d2) k = (dictHasKey d1 k || dictHasKey d2 k) := by
  unfold dictHasKey
  rw [List.find?_append]
  cases h : d1.find? (fun p => p.1 == k) <;> simp [Option.or, h]

theorem dictGet_dictSet_ne :
    ∀ (d : List (String × JValue)) (k k' : String) (v : JValue),
      k' ≠ k → dictGet (dictSet d k v) k' = dictGet d k' := by
  intro d
  induction d with
  | nil =>
    intro k k' v hne
    unfold dictSet dictGet
    rw [List.find?_singleton]
    simp [Ne.symm hne]
  | cons p rest ih =>
    intro k k' v hne
    show dictGet (if p.1 == k then (k, v) :: rest else p :: dictSet rest k v) k' = _
    by_cases hpk : p.1 = k
    · rw [if_pos (by simp [hpk])]
      unfold dictGet
      rw [List.find?_cons, List.find?_cons]
      have h1 : (k == k') = false := by simp [Ne.symm hne]
      have h2 : (p.1 == k') = false := by simp [hpk, Ne.symm hne]
      simp only [h1, h2]
    · rw [if_neg (by simp [hpk])]
      unfold dictGet
      rw [List.find?_cons, List.find?_cons]
      cases hp' : (p.1 == k') with
      | true => rfl
      | false =>
        simp only [hp']
        exact ih k k' v hne

theorem dictSet_map_fst_of_hasKey :
    ∀ (d : List (String × JValue)) (k : String) (v : JValue),
      dictHasKey d k = true →
      (dictSet d k v).map Prod.fst = d.map Prod.fst := by
  intro d
  induction d with
  | nil => intro k v h; simp [dictHasKey] at h
  | cons p rest ih =>
    intro k v h
    show ((if p.1 == k then (k, v) :: rest else p :: dictSet rest k v).map Prod.fst) = _
    cases hpk : (p.1 == k) with
    | true =>
      rw [if_pos (by simp [hpk])]
      have : p.1 = k := by simpa using hpk
      simp [this]
    | false =>
      rw [if_neg (by simp [hpk])]
      unfold dictHasKey at h
      rw [List.find?_cons] at h
      simp only [hpk] at h
      simp [ih k v h]

theorem foldl_copy_keys (fields : List (String × JValue)) :
    ∀ (ks : List String) (acc : List (String × JValue)),
      ks.Nodup → (∀ k ∈ ks, dictHasKey acc k = false) →
      ks.foldl (fun acc k =>
          if dictHasKey fields k then dictSet acc k ((dictGet fields k).getD .null)
          else acc) acc =
        acc ++ ks.filterMap (fun k => (dictGet fields k).map (fun v => (k, v))) := by
  intro ks
  induction ks with
  | nil => intro acc _ _; simp
  | cons k ks' ih =>
    intro acc hnd hfresh
    have hnd' : ks'.Nodup := (List.nodup_cons.mp hnd).2
    have hknotin : k ∉ ks' := (List.nodup_cons.mp hnd).1
    simp only [List.foldl_cons, List.filterMap_cons]
    cases hk : dictHasKey fields k with
    | false =>
      have hget : dictGet fields k = none := by
        have := dictHasKey_iff_isSome fields k
        rw [hk] at this
        cases h : dictGet fields k
        · rfl
        · rw [h] at this; simp at this
      rw [if_neg (by simp [hk]), hget]
      exact ih acc hnd' (fun k' hk' => hfresh k' (by simp [hk']))
    | true =>
      have hget : ∃ v, dictGet fields k = some v := by
        have := dictHasKey_iff_isSome fields k
        rw [hk] at this
        cases h : dictGet fields k
        · rw [h] at this; simp at this
        · exact ⟨_, rfl⟩
      obtain ⟨v, hv⟩ := hget
      rw [if_pos (by simp [hk]), hv]
      have hstep : dictSet acc k ((some v).getD .null) = acc ++ [(k, v)] :=
        dictSet_of_not_hasKey acc k v (hfresh k (by simp))
      rw [hstep, ih (acc ++ [(k, v)]) hnd' ?_]
      · simp
      · intro k' hk'
        rw [dictHasKey_append, dictHasKey_singleton]
        have h1 : dictHasKey acc k' = false := hfresh k' (by simp [hk'])
        have h2 : (k == k') = false := by
          have : k ≠ k' := fun h => hknotin (h ▸ hk')
          simp [this]
        simp [h1, h2]

theorem normalizeEntry_ok_of_entryDateOk (idx : Nat) (cp : JValue)
    (h : ChangePointService.entryDateOk cp = true) :
    ∃ item, ChangePointService.normalizeEntry idx cp = .ok item := by
  cases cp with
  | obj f =>
    simp only [ChangePointService.entryDateOk] at h
    cases hd : DateParser.parse (ChangePointService.cpDateText f) with
    | none => rw [hd] at h; simp at h
    | some d =>
      refine ⟨recognizedKeys.foldl
        (fun acc k =>
          if dictHasKey f k then dictSet acc k ((dictGet f k).getD .null) else acc)
        [("date", .str d.isoformat)], ?_⟩
      simp only [ChangePointService.normalizeEntry, hd]
  | null => simp [ChangePointService.entryDateOk] at h
  | bool b => simp [ChangePointService.entryDateOk] at h
  | num q => simp [ChangePointService.entryDateOk] at h
  | str s => simp [ChangePointService.entryDateOk] at h
  | arr xs => simp [ChangePointService.entryDateOk] at h

theorem processEntries_error_on_bad :
    ∀ (good : List JValue) (idx : Nat) (f : List (String × JValue))
      (rest : List JValue),
      (∀ cp ∈ good, ChangePointService.entryDateOk cp = true) →
      DateParser.parse (ChangePointService.cpDateText f) = none →
      ChangePointService.processEntries idx (good ++ .obj f :: rest) =
        .error ⟨ChangePointService.badDateMsg (idx + good.length), 400⟩ := by
  intro good
  induction good with
  | nil =>
    intro idx f rest _ hbad
    simp only [List.nil_append, ChangePointService.processEntries,
      ChangePointService.normalizeEntry, hbad, List.length_nil, Nat.add_zero]
  | cons g good' ih =>
    intro idx f rest hgood hbad
    have hg : ChangePointService.entryDateOk g = true := hgood g (by simp)
    obtain ⟨item, hitem⟩ := normalizeEntry_ok_of_entryDateOk idx g hg
    simp only [List.cons_append, ChangePointService.processEntries, hitem,
      List.append_eq]
    rw [ih (idx + 1) f rest (fun cp hcp => hgood cp (by simp [hcp])) hbad]
    have harith : idx + 1 + good'.length = idx + (g :: good').length := by
      simp [List.length_cons]
      omega
    rw [harith]

/-! # Claim theorems -/

/-- Claim C5: the Date Parser never raises (it is a total function into
`Option Date`) and returns `none` for null input, the empty string, and any
whitespace-only string. -/
theorem spec_C5 :
    DateParser.parse none = none ∧
    DateParser.parse (some "") = none ∧
    ∀ s : String, (∀ c ∈ s.data, isPySpace c = true) →
      DateParser.parse (some s) = none := by
  refine ⟨rfl, rfl, fun s h => ?_⟩
  have h0 : pyStrip s = "" := pyStrip_of_all_space h
  simp only [DateParser.parse, h0]
  rfl

/-- Witness for C5 at the three-space string. -/
theorem spec_C5_witness : DateParser.parse (some "   ") = none :=
  spec_C5.2.2 "   " (by decide)

/-- Claim C6: for non-blank text on which the ISO fast path fails, the parser
tries exactly the five format patterns `%Y/%m/%d`, `%m/%d/%Y`, `%d/%m/%Y`,
`%d-%b-%y`, `%d-%b-%Y` in that order with the first full match winning; in
particular `"03/04/2020"` parses as month 3, day 4, year 2020 (the
`MM/DD/YYYY` reading). -/
theorem spec_C6 :
    (∀ v : String, pyStrip v ≠ "" →
      fromisoformatDate (replaceZ (pyStrip v)) = none →
      DateParser.parse (some v) =
        Option.or (strptimeYmd (pyStrip v))
          (Option.or (strptimeMdy (pyStrip v))
            (Option.or (strptimeDmy (pyStrip v))
              (Option.or (strptimeDby (pyStrip v)) (strptimeDbY (pyStrip v)))))) ∧
    DateParser.parse (some "03/04/2020") = some ⟨2020, 3, 4⟩ := by
  constructor
  · intro v hne hiso
    have he : (pyStrip v).isEmpty = false := by
      cases h : (pyStrip v).isEmpty
      · rfl
      · exact absurd ((String.isEmpty_iff _).mp h) hne
    simp only [DateParser.parse, he, Bool.false_eq_true, if_false, hiso, formatAttempts,
      List.findSome?_cons, List.findSome?_nil]
    cases h1 : strptimeYmd (pyStrip v) <;>
      cases h2 : strptimeMdy (pyStrip v) <;>
        cases h3 : strptimeDmy (pyStrip v) <;>
          cases h4 : strptimeDby (pyStrip v) <;>
            cases h5 : strptimeDbY (pyStrip v) <;>
              simp [Option.or, h1, h2, h3, h4, h5]
  · rfl

/-- Witness for C6: the order equation instantiated at `"03/04/2020"`. -/
theorem spec_C6_witness :
    DateParser.parse (some "03/04/2020") =
      Option.or (strptimeYmd (pyStrip "03/04/2020"))
        (Option.or (strptimeMdy (pyStrip "03/04/2020"))
          (Option.or (strptimeDmy (pyStrip "03/04/2020"))
            (Option.or (strptimeDby (pyStrip "03/04/2020"))
              (strptimeDbY (pyStrip "03/04/2020"))))) :=
  spec_C6.1 "03/04/2020" (by decide) (by decide)

/-- Claim C10: in `get_prices`, query bounds are validated only after source
selection, read and the empty-source check: a selected price file with zero
data rows yields `.ok []` for every raw bound (even unparsable or inverted
ones), and when neither price file exists the failure is the 404 `NotFound`,
for every raw bound. -/
theorem spec_C10 :
    (∀ (alt : Option (List Row)) (s e : Option String),
      PriceService.get_prices (some []) alt s e = .ok []) ∧
    (∀ s e : Option String,
      PriceService.get_prices none (some []) s e = .ok []) ∧
    (∀ s e : Option String,
      PriceService.get_prices none none s e =
        .error ⟨"brent_prices.csv or BrentOilPrices.csv not found", 404⟩) :=
  ⟨fun _ _ _ => rfl, fun _ _ => rfl, fun _ _ => rfl⟩

/-- Counterexample to C2: on the spec's example source, the call with
`start="2020-01-02"` raises `NoValidData` (counts 1 and 1) instead of
returning an empty list. -/
theorem spec_C2_counterexample :
    PriceService.get_prices (some c2Rows) none (some "2020-01-02") none =
      .error ⟨PriceService.noValidPricesMsg 1 1, 400⟩ ∧
    (Except.error ⟨PriceService.noValidPricesMsg 1 1, 400⟩ :
      Except ValidationError (List PriceItem)) ≠ .ok [] :=
  ⟨rfl, fun h => Except.noConfusion h⟩

/-- Claim C2 as amended: the first call returns the single valid row; the
second call (with `start="2020-01-02"`) fails with `NoValidData` reporting
one invalid date and one invalid price, because rows were counted invalid and
the output is empty — the range-excluded valid row does not avert the error. -/
theorem spec_C2_amended :
    PriceService.get_prices (some c2Rows) none none none =
      .ok [⟨"2020-01-01", .finite (mkRat 2469 2)⟩] ∧
    PriceService.get_prices (some c2Rows) none (some "2020-01-02") none =
      .error ⟨PriceService.noValidPricesMsg 1 1, 400⟩ :=
  ⟨rfl, rfl⟩

/-- Counterexample to C3: a price text of `inf` converts successfully, so a
non-finite price is emitted. -/
theorem spec_C3_counterexample :
    PriceService.get_prices (some infPriceRows) none none none =
      .ok [⟨"2020-01-01", .inf false⟩] ∧
    PyFloat.isFinite (.inf false) = false :=
  ⟨rfl, rfl⟩

/-- Counterexample to C1: with a `category` column present, a row whose
category value is the empty string yields a record with category `none`
(the `or None` coalescing), not the empty string. -/
theorem spec_C1_counterexample :
    EventService.get_events (some emptyCategoryRows) =
      .ok [⟨"2020-01-01", "x", none⟩] ∧
    (none : Option String) ≠ some "" :=
  ⟨rfl, fun h => Option.noConfusion h⟩

/-- Claim C4: in both tabular pipelines, an empty output with at least one
row counted invalid fails with `NoValidData` carrying both counts, while an
empty output with no invalid rows (all rows range-excluded, or an empty
source) is an empty, non-error result. -/
theorem spec_C4 :
    (∀ (alt : Option (List Row)) (s e : Option String),
      PriceService.get_prices (some []) alt s e = .ok []) ∧
    (∀ (alt : Option (List Row)) (s e : Option String)
      (r0 : Row) (rest : List Row) (st en : Option Date),
      rowHasKey r0 "Date" = true → rowHasKey r0 "Price" = true →
      PriceService.parse_query_dates s e = .ok (st, en) →
      (PriceService.processRows st en (r0 :: rest)).payload = [] →
      (((PriceService.processRows st en (r0 :: rest)).invalid_date ≠ 0 ∨
          (PriceService.processRows st en (r0 :: rest)).invalid_price ≠ 0) →
        PriceService.get_prices (some (r0 :: rest)) alt s e =
          .error ⟨PriceService.noValidPricesMsg
            (PriceService.processRows st en (r0 :: rest)).invalid_date
            (PriceService.processRows st en (r0 :: rest)).invalid_price, 400⟩) ∧
      ((PriceService.processRows st en (r0 :: rest)).invalid_date = 0 ∧
          (PriceService.processRows st en (r0 :: rest)).invalid_price = 0 →
        PriceService.get_prices (some (r0 :: rest)) alt s e = .ok [])) ∧
    (EventService.get_events (some []) = .ok []) ∧
    (∀ (r0 : Row) (rest : List Row),
      rowHasKey r0 "date" = true → rowHasKey r0 "event" = true →
      (EventService.processRows (rowHasKey r0 "category") (r0 :: rest)).payload = [] →
      (((EventService.processRows (rowHasKey r0 "category") (r0 :: rest)).invalid_date ≠ 0 ∨
          (EventService.processRows (rowHasKey r0 "category") (r0 :: rest)).invalid_event ≠ 0) →
        EventService.get_events (some (r0 :: rest)) =
          .error ⟨EventService.noValidEventsMsg
            (EventService.processRows (rowHasKey r0 "category") (r0 :: rest)).invalid_date
            (EventService.processRows (rowHasKey r0 "category") (r0 :: rest)).invalid_event, 400⟩) ∧
      ((EventService.processRows (rowHasKey r0 "category") (r0 :: rest)).invalid_date = 0 ∧
          (EventService.processRows (rowHasKey r0 "category") (r0 :: rest)).invalid_event = 0 →
        EventService.get_events (some (r0 :: rest)) = .ok [])) := by
  refine ⟨fun _ _ _ => rfl, ?_, rfl, ?_⟩
  · intro alt s e r0 rest st en hD hP hq hemp
    rw [get_prices_unfold alt s e r0 rest st en hD hP hq, hemp]
    constructor
    · intro hcnt
      have hb : ((PriceService.processRows st en (r0 :: rest)).invalid_date != 0 ||
          (PriceService.processRows st en (r0 :: rest)).invalid_price != 0) = true := by
        rcases hcnt with h | h <;> simp [bne, h]
      rw [show sortByKey PriceItem.date ([] : List PriceItem) = [] from rfl]
      simp [hb]
    · intro hcnt
      rw [show sortByKey PriceItem.date ([] : List PriceItem) = [] from rfl]
      simp [hcnt.1, hcnt.2]
  · intro r0 rest hD hE hemp
    rw [get_events_unfold r0 rest hD hE, hemp]
    constructor
    · intro hcnt
      have hb : ((EventService.processRows (rowHasKey r0 "category") (r0 :: rest)).invalid_date != 0 ||
          (EventService.processRows (rowHasKey r0 "category") (r0 :: rest)).invalid_event != 0) = true := by
        rcases hcnt with h | h <;> simp [bne, h]
      rw [show sortByKey EventItem.date ([] : List EventItem) = [] from rfl]
      simp [hb]
    · intro hcnt
      rw [show sortByKey EventItem.date ([] : List EventItem) = [] from rfl]
      simp [hcnt.1, hcnt.2]

/-- Claim C1 as amended: the asymmetry does not survive the `or None`
coalescing.  When the header has no `category` column every record's category
is null; and with the column present, a row whose raw category value is the
empty string also yields a null category (not the empty string) — only a
nonempty category value is passed through. -/
theorem spec_C1_amended :
    (∀ (r0 : Row) (rest : List Row) (out : List EventItem),
      rowHasKey r0 "category" = false →
      EventService.get_events (some (r0 :: rest)) = .ok out →
      ∀ item ∈ out, item.category = none) ∧
    (∀ (hc : Bool) (acc : EventService.Acc) (row : Row) (d : Date),
      DateParser.parse (rowGet row "date") = some d →
      pyStrip (pyOrDefault (rowGet row "event") "") ≠ "" →
      rowGet row "category" = some "" →
      EventService.eventStep hc acc row =
        { acc with payload := acc.payload ++
            [⟨d.isoformat, pyStrip (pyOrDefault (rowGet row "event") ""), none⟩] }) := by
  constructor
  · intro r0 rest out hcat hok item hitem
    cases hD : rowHasKey r0 "date" with
    | false =>
      rw [get_events_header_bad r0 rest (Or.inl hD)] at hok
      exact Except.noConfusion hok
    | true =>
      cases hE : rowHasKey r0 "event" with
      | false =>
        rw [get_events_header_bad r0 rest (Or.inr hE)] at hok
        exact Except.noConfusion hok
      | true =>
        rw [get_events_unfold r0 rest hD hE, hcat] at hok
        split at hok
        · exact Except.noConfusion hok
        · have hout := (Except.ok.injEq _ _).mp hok
          subst hout
          have hmem : item ∈ (EventService.processRows false (r0 :: rest)).payload :=
            mem_sortByKey hitem
          exact events_category_none_aux (r0 :: rest) ⟨[], 0, 0⟩ (by intro it h; simp at h)
            item hmem
  · intro hc acc row d hd hev hcat
    have he : (pyStrip (pyOrDefault (rowGet row "event") "")).isEmpty = false := by
      cases h : (pyStrip (pyOrDefault (rowGet row "event") "")).isEmpty
      · rfl
      · exact absurd ((String.isEmpty_iff _).mp h) hev
    simp only [EventService.eventStep, hd, he, Bool.false_eq_true, if_false, hcat]
    cases hc
    · simp [pyOrNone]
    · simp [pyOrNone]
      rfl

/-- Claim C3 as amended: every emitted price is the numeric conversion of
some selected-source row's `Price` text after comma removal and whitespace
trimming — but the conversion accepts `inf`/`nan` literals, so the emitted
price is a Python float that need not be finite. -/
theorem spec_C3_amended :
    ∀ (primary alt : Option (List Row)) (s e : Option String)
      (out : List PriceItem),
      PriceService.get_prices primary alt s e = .ok out →
      ∀ it ∈ out, ∃ rows,
        PriceService.select_prices_path primary alt = some rows ∧
        ∃ row ∈ rows, pyFloatOfString (PriceService.priceTextOf row) = some it.price := by
  intro primary alt s e out hok it hit
  unfold PriceService.get_prices at hok
  cases hsel : PriceService.select_prices_path primary alt with
  | none =>
    rw [hsel] at hok
    exact Except.noConfusion hok
  | some rows =>
    rw [hsel] at hok
    refine ⟨rows, rfl, ?_⟩
    cases rows with
    | nil =>
      simp only [PriceService.get_prices_from] at hok
      have hout := (Except.ok.injEq _ _).mp hok
      subst hout
      simp at hit
    | cons r0 rest =>
      cases hD : rowHasKey r0 "Date" with
      | false =>
        simp [PriceService.get_prices_from, hD] at hok
      | true =>
        cases hP : rowHasKey r0 "Price" with
        | false =>
          simp [PriceService.get_prices_from, hD, hP] at hok
        | true =>
          cases hq : PriceService.parse_query_dates s e with
          | error err =>
            simp only [PriceService.get_prices_from, hD, hP, hq, Bool.and_self,
              Bool.not_true, Bool.false_eq_true, if_false] at hok
            exact Except.noConfusion hok
          | ok bounds =>
            obtain ⟨st, en⟩ := bounds
            have hok' := hok
            rw [show PriceService.get_prices_from (some (r0 :: rest)) s e =
                PriceService.get_prices (some (r0 :: rest)) none s e from rfl,
              get_prices_unfold none s e r0 rest st en hD hP hq] at hok'
            split at hok'
            · exact Except.noConfusion hok'
            · have hout := (Except.ok.injEq _ _).mp hok'
              subst hout
              have hmem : it ∈ (PriceService.processRows st en (r0 :: rest)).payload :=
                mem_sortByKey hit
              have := mem_priceFold (r0 :: rest) st en ⟨[], 0, 0⟩ it hmem
              rcases this with h | h
              · simp at h
              · exact h

/-- Witness for C3: the provenance statement at a one-row source with price
text `10`. -/
theorem spec_C3_witness :
    ∃ rows,
      PriceService.select_prices_path
          (some [[("Date", some "2020-01-01"), ("Price", some "10")]]) none = some rows ∧
      ∃ row ∈ rows, pyFloatOfString (PriceService.priceTextOf row) =
        some (PriceItem.mk "2020-01-01" (.finite (mkRat 10 1))).price :=
  spec_C3_amended (some [[("Date", some "2020-01-01"), ("Price", some "10")]]) none
    none none [⟨"2020-01-01", .finite (mkRat 10 1)⟩] rfl
    ⟨"2020-01-01", .finite (mkRat 10 1)⟩ (by simp)

/-- Witness for C1: the per-row statement at a concrete row whose category
value is the empty string. -/
theorem spec_C1_witness :
    EventService.eventStep true ⟨[], 0, 0⟩
        [("date", some "2020-01-01"), ("event", some "x"), ("category", some "")] =
      ⟨[⟨"2020-01-01", "x", none⟩], 0, 0⟩ :=
  spec_C1_amended.2 true ⟨[], 0, 0⟩
    [("date", some "2020-01-01"), ("event", some "x"), ("category", some "")]
    ⟨2020, 1, 1⟩ rfl (by decide) rfl

/-- Witness for C4: a one-row source whose only row has an invalid date fails
with `NoValidData` reporting one invalid date and zero invalid prices. -/
theorem spec_C4_witness :
    PriceService.get_prices (some [[("Date", some "bad"), ("Price", some "10")]])
      none none none =
      .error ⟨PriceService.noValidPricesMsg 1 0, 400⟩ :=
  (spec_C4.2.1 none none none [("Date", some "bad"), ("Price", some "10")] []
      none none rfl rfl rfl rfl).1 (Or.inl (by decide))

/-- Claim C7: if the change-point list has an entry (an object) without a
parsable date at index `i`, all earlier entries being valid, the whole call
fails with the `SchemaError` naming index `i` — no partial output, however
many later entries are valid. -/
theorem spec_C7 :
    ∀ (fields : List (String × JValue)) (cps good rest : List JValue)
      (f : List (String × JValue)),
      dictGet fields "change_points" = some (.arr cps) →
      cps = good ++ .obj f :: rest →
      (∀ cp ∈ good, ChangePointService.entryDateOk cp = true) →
      DateParser.parse (ChangePointService.cpDateText f) = none →
      ChangePointService.get_change_points (some (.ok (.obj fields))) =
        .error ⟨ChangePointService.badDateMsg good.length, 400⟩ := by
  intro fields cps good rest f hget hcps hgood hbad
  subst hcps
  simp only [ChangePointService.get_change_points, hget]
  rw [processEntries_error_on_bad good 0 f rest hgood hbad]
  simp

/-- Witness for C7: a two-entry document whose second entry has no date
fails naming index 1. -/
theorem spec_C7_witness :
    ChangePointService.get_change_points
        (some (.ok (.obj [("change_points", .arr
          [.obj [("date", .str "2021-03-01")], .obj [("notes", .str "n")]])]))) =
      .error ⟨ChangePointService.badDateMsg 1, 400⟩ :=
  spec_C7 [("change_points", .arr
      [.obj [("date", .str "2021-03-01")], .obj [("notes", .str "n")]])]
    [.obj [("date", .str "2021-03-01")], .obj [("notes", .str "n")]]
    [.obj [("date", .str "2021-03-01")]] [] [("notes", .str "n")]
    rfl rfl
    (by
      intro cp hcp
      rw [List.mem_singleton] at hcp
      subst hcp
      rfl)
    rfl

/-- Claim C8: a valid entry normalizes to exactly the canonical date binding
followed by those of the four recognized keys present on the entry, with
their values verbatim, in the fixed order `date, mean_before, mean_after,
impact_pct, notes`; every other key is dropped. -/
theorem spec_C8 :
    ∀ (fields : List (String × JValue)) (idx : Nat) (d : Date),
      DateParser.parse (ChangePointService.cpDateText fields) = some d →
      ChangePointService.normalizeEntry idx (.obj fields) =
        .ok (("date", .str d.isoformat) ::
          recognizedKeys.filterMap (fun k => (dictGet fields k).map (fun v => (k, v)))) := by
  intro fields idx d hd
  simp only [ChangePointService.normalizeEntry, hd]
  rw [foldl_copy_keys fields recognizedKeys [("date", .str d.isoformat)]
    (by decide) ?_]
  · simp
  · intro k hk
    rw [dictHasKey_singleton]
    simp only [recognizedKeys, List.mem_cons, List.mem_singleton] at hk
    rcases hk with rfl | rfl | rfl | rfl | hk
    · rfl
    · rfl
    · rfl
    · rfl
    · simp at hk

/-- Witness for C8: the spec's example entry, with `unexpected` dropped and
`impact_pct` kept after the canonical date. -/
theorem spec_C8_witness :
    ChangePointService.normalizeEntry 0
        (.obj [("date", .str "2021-03-01"), ("impact_pct", .num 5),
          ("unexpected", .str "x")]) =
      .ok [("date", .str "2021-03-01"), ("impact_pct", .num 5)] :=
  spec_C8 [("date", .str "2021-03-01"), ("impact_pct", .num 5),
    ("unexpected", .str "x")] 0 ⟨2021, 3, 1⟩ rfl

/-- Claim C9: on success, the output document has exactly the input's
top-level keys in the input's order, and every key other than
`change_points` keeps its input value — only `change_points` is rebound. -/
theorem spec_C9 :
    ∀ (fields out : List (String × JValue)),
      ChangePointService.get_change_points (some (.ok (.obj fields))) = .ok out →
      out.map Prod.fst = fields.map Prod.fst ∧
      ∀ k, k ≠ "change_points" → dictGet out k = dictGet fields k := by
  intro fields out hok
  simp only [ChangePointService.get_change_points] at hok
  cases hget : dictGet fields "change_points" with
  | none =>
    rw [hget] at hok
    exact Except.noConfusion hok
  | some v =>
    rw [hget] at hok
    cases v with
    | null => exact Except.noConfusion hok
    | bool b => exact Except.noConfusion hok
    | num q => exact Except.noConfusion hok
    | str s => exact Except.noConfusion hok
    | obj o => exact Except.noConfusion hok
    | arr cps =>
      have hok2 : (match ChangePointService.processEntries 0 cps with
          | Except.error e => Except.error e
          | Except.ok items =>
            Except.ok (dictSet fields "change_points" (JValue.arr (items.map JValue.obj)))) =
          (Except.ok out : Except ValidationError (List (String × JValue))) := hok
      cases hpe : ChangePointService.processEntries 0 cps with
      | error err =>
        rw [hpe] at hok2
        exact Except.noConfusion hok2
      | ok items =>
        rw [hpe] at hok2
        have hout := (Except.ok.injEq _ _).mp hok2
        subst hout
        have hhas : dictHasKey fields "change_points" = true := by
          rw [dictHasKey_iff_isSome, hget]
          rfl
        exact ⟨dictSet_map_fst_of_hasKey fields "change_points" _ hhas,
          fun k hk => dictGet_dictSet_ne fields "change_points" k _ hk⟩

/-- Witness for C9: a document with an extra top-level key `title` keeps its
`title` value across normalization (here normalization rewrites the
`change_points` entry, dropping its unrecognized `extra` key). -/
theorem spec_C9_witness :
    dictGet [("title", .str "t"),
        ("change_points", .arr [.obj [("date", .str "2021-03-01")]])] "title" =
      dictGet [("title", .str "t"),
        ("change_points", .arr [.obj [("date", .str "2021-03-01"), ("extra", .null)]])]
        "title" :=
  (spec_C9
    [("title", .str "t"),
      ("change_points", .arr [.obj [("date", .str "2021-03-01"), ("extra", .null)]])]
    [("title", .str "t"),
      ("change_points", .arr [.obj [("date", .str "2021-03-01")]])]
    rfl).2 "title" (by decide)

end OilSpec
